import Mathlib

/-!
# Verification of the Hyperliquid copy-trading bot core

A shallow embedding of `copy-trading-bot/copy_trader.py` (class `CopyTradingBot`).

Modelling conventions:
* Python strings are modelled as `List Char` (`Str`); `str.lower`,
  `str.startswith` and the `in` substring test are modelled character-wise.
* Python floats are modelled as exact rationals `ℚ`; `round(x, n)` is Python's
  documented round-half-to-even on the exact value.
* Python dicts keyed by coin are modelled as association lists with distinct
  keys (`Ledger`); `set` of processed fill ids is a `List Str` with
  insert-if-absent.
* The external collaborators (exchange SDK, gRPC feed) are modelled as an
  environment `Env` that supplies the account value, the position snapshots
  returned by `_sync_positions_from_exchange`, and the order response.
* Printing is ignored; each early `return` is reflected in an `Outcome` tag.
-/

namespace CopyTrader

/-- Python strings, modelled as lists of characters. -/
abbrev Str := List Char

/-- Python `str.lower()`. -/
def strLower (s : Str) : Str := s.map Char.toLower

/-- Python `str.startswith(pat)`. -/
def strStarts (s pat : Str) : Bool := pat.isPrefixOf s

/-- Python `pat in s` (contiguous substring test). -/
def strHasSub : Str → Str → Bool
  | [], pat => pat.isPrefixOf []
  | c :: t, pat => pat.isPrefixOf (c :: t) || strHasSub t pat

/-- Cached per-coin metadata, from `_fetch_coin_metadata` (lines 157-184):
`{"szDecimals": ..., "maxLeverage": ..., "tickSize": ...}`. -/
structure InstrumentMeta where
  szDecimals : ℕ
  maxLeverage : ℕ
  tickSize : ℚ
deriving DecidableEq, Repr

/-- `self.coin_metadata`: coin name → metadata. -/
abbrev MetaMap := List (Str × InstrumentMeta)

def metaLookup (meta : MetaMap) (coin : Str) : Option InstrumentMeta :=
  (meta.find? (fun p => p.1 == coin)).map (·.2)

/-- Python's built-in `round` to an integer: round half to even
(banker's rounding), on the exact rational value. -/
def pyRound (x : ℚ) : ℤ :=
  if Int.fract x < 1/2 then ⌊x⌋
  else if 1/2 < Int.fract x then ⌊x⌋ + 1
  else if ⌊x⌋ % 2 = 0 then ⌊x⌋ else ⌊x⌋ + 1

/-- Python's `round(x, n)`: round half to even at `n` decimal places. -/
def pyRoundTo (x : ℚ) (n : ℕ) : ℚ :=
  (pyRound (x * 10 ^ n) : ℚ) / 10 ^ n

/-- `CopyTradingBot._round_size` (lines 186-193). -/
def round_size (meta : MetaMap) (coin : Str) (size : ℚ) : ℚ :=
  match metaLookup meta coin with
  | some m => pyRoundTo size m.szDecimals
  | none => pyRoundTo size 4

/-- `CopyTradingBot._round_price` (lines 195-204). -/
def round_price (meta : MetaMap) (coin : Str) (price : ℚ) : ℚ :=
  match metaLookup meta coin with
  | some m => (pyRound (price / m.tickSize) : ℚ) * m.tickSize
  | none => pyRoundTo price 2

/-- The configuration loaded in `__init__` (lines 73-90). `enabled_coins` is
`none` when `ENABLED_COINS` is empty (line 86 stores Python `None` then). -/
structure Config where
  target_wallet : Str
  copy_percentage : ℚ
  dry_run : Bool
  max_position_usd : ℚ
  min_position_usd : ℚ
  max_open_positions : ℕ
  slippage_tolerance_pct : ℚ
  coin_filter_mode : Str
  enabled_coins : Option (List Str)
deriving DecidableEq, Repr

/-- `self.min_notional_usd = 10.0` (line 81), the Hyperliquid exchange
minimum. -/
def min_notional_usd : ℚ := 10

/-- `self.open_positions`: coin → signed size (positive long, negative
short), a Python dict modelled as an association list with distinct keys. -/
abbrev Ledger := List (Str × ℚ)

def ledgerHas (l : Ledger) (coin : Str) : Bool := l.any (fun p => p.1 == coin)

def ledgerGet (l : Ledger) (coin : Str) : Option ℚ :=
  (l.find? (fun p => p.1 == coin)).map (·.2)

/-- Python `dict.get(coin, d)`. -/
def ledgerGetD (l : Ledger) (coin : Str) (d : ℚ) : ℚ := (ledgerGet l coin).getD d

/-- Python `dict[coin] = v` (update in place, or append a new key). -/
def ledgerSet (l : Ledger) (coin : Str) (v : ℚ) : Ledger :=
  if ledgerHas l coin then l.map (fun p => if p.1 == coin then (coin, v) else p)
  else l ++ [(coin, v)]

/-- Python `del dict[coin]` (a no-op when the key is absent, matching the
guarded `if coin in ...: del ...` uses in the source). -/
def ledgerErase (l : Ledger) (coin : Str) : Ledger :=
  l.filter (fun p => !(p.1 == coin))

/-- Number of ledger entries holding a nonzero size. -/
def nonzeroCount (l : Ledger) : ℕ := (l.filter (fun p => !(p.2 == 0))).length

/-- One fill from the stream: the relevant fields of `fill_data` as read in
`process_fill` (lines 484-495). `closedPnl` is the parsed numeric value, with
an absent or empty field modelled as `0` (the source's truthiness test on the
raw string makes both behave as "no pnl"). `dir` is `[]` when absent. -/
structure FillData where
  hash : Str
  tid : Str
  coin : Str
  side : Str
  sz : ℚ
  px : ℚ
  closedPnl : ℚ
  dir : Str
deriving DecidableEq, Repr

/-- `fill_id = f"{hash}_{tid}"` (line 484). -/
def fillKey (e : FillData) : Str := e.hash ++ ['_'] ++ e.tid

/-- Line 499: `is_closing = direction.startswith('Close') if direction else
(closed_pnl and float(closed_pnl) != 0)`. -/
def is_closing (e : FillData) : Bool :=
  if e.dir ≠ [] then strStarts e.dir ("Close".data) else decide (e.closedPnl ≠ 0)

/-- Line 500: `is_opening = direction.startswith('Open') if direction else
not is_closing` (computed and, in the source, not read afterwards). -/
def is_opening (e : FillData) : Bool :=
  if e.dir ≠ [] then strStarts e.dir ("Open".data) else !(is_closing e)

/-- Lines 502-505: the coin allow-list test. Blocking requires filter mode
`ENABLED` and a truthy (nonempty) allow-set not containing the coin. -/
def coinBlocked (cfg : Config) (coin : Str) : Bool :=
  cfg.coin_filter_mode == "ENABLED".data &&
    (match cfg.enabled_coins with
     | some cs => !cs.isEmpty && !(cs.contains coin)
     | none => false)

/-- `CopyTradingBot.calculate_position_size` (lines 254-301), as a pure
function of the account value actually used (the exchange fetch, its `100.0`
fallback, and the dry-run `100.0` are all summarised by `account_value_usd`).
`target_size` is a parameter of the source function that it never reads. -/
def calculate_position_size (cfg : Config) (account_value_usd : ℚ)
    (meta : MetaMap) (target_size target_price : ℚ) (coin : Str) : Option ℚ :=
  let our_value_usd := account_value_usd * (cfg.copy_percentage / 100)
  let our_value_usd :=
    if cfg.max_position_usd < our_value_usd then cfg.max_position_usd
    else our_value_usd
  if our_value_usd < cfg.min_position_usd then none
  else
    let our_size_raw := our_value_usd / target_price
    let our_size := round_size meta coin our_size_raw
    if our_size * target_price < min_notional_usd then none
    else some our_size

/-- The exchange's answer to `self.exchange.order(...)` as interpreted by
lines 389-463: a fill (with actual filled size and average price), a
status-level error, an ok response with no statuses, an API-level failure
(`status != "ok"`), or a raised exception. -/
inductive OrderResult where
  | filled (total_sz avg_px : ℚ)
  | errorStatus (msg : Str)
  | okNoStatuses
  | apiFailure
  | exn
deriving DecidableEq, Repr

/-- The external collaborators for one `process_fill` call: the account value
used by sizing, the snapshot `_sync_positions_from_exchange` would install
before a close (line 334) and after an open (line 435), and the order
response. -/
structure Env where
  account_value_usd : ℚ
  close_snapshot : Ledger
  open_snapshot : Ledger
  order_result : OrderResult
deriving DecidableEq, Repr

/-- An order as submitted to `self.exchange.order(coin, is_buy, size,
order_price, {"limit": {"tif": "Ioc"}}, reduce_only=is_closing)`
(lines 380-387). -/
structure Order where
  coin : Str
  is_buy : Bool
  size : ℚ
  limit_px : ℚ
  reduce_only : Bool
deriving DecidableEq, Repr

/-- Lines 349-455 of `place_order`: slippage adjustment, tick rounding,
submission and response handling. Returns the new `open_positions` and the
submitted order. -/
def submit_order (cfg : Config) (env : Env) (meta : MetaMap)
    (positions : Ledger) (coin : Str) (is_buy : Bool) (size price : ℚ)
    (closing : Bool) : Ledger × Option Order :=
  let order_price :=
    if !closing && 0 < cfg.slippage_tolerance_pct then
      if is_buy then price * (1 + cfg.slippage_tolerance_pct / 100)
      else price * (1 - cfg.slippage_tolerance_pct / 100)
    else price
  let order_price := round_price meta coin order_price
  let order : Order := ⟨coin, is_buy, size, order_price, closing⟩
  match env.order_result with
  | .filled total_sz _ =>
      let positions :=
        if !closing then
          ledgerSet positions coin
            (ledgerGetD positions coin 0 + (if is_buy then total_sz else -total_sz))
        else ledgerErase positions coin
      let positions := if !closing then env.open_snapshot else positions
      (positions, some order)
  | .errorStatus _ =>
      let positions := if !closing then env.open_snapshot else positions
      (positions, some order)
  | .okNoStatuses =>
      let positions := if !closing then env.open_snapshot else positions
      (positions, some order)
  | .apiFailure => (positions, some order)
  | .exn => (positions, some order)

/-- `CopyTradingBot.place_order` (lines 303-463). In dry-run mode only the
local tracker is updated and nothing is submitted. In live mode a close first
resyncs the ledger from the exchange and aborts if the position is absent or
its direction does not match. -/
def place_order (cfg : Config) (env : Env) (meta : MetaMap)
    (positions : Ledger) (coin : Str) (side : Str) (size price : ℚ)
    (closing : Bool) : Ledger × Option Order :=
  let is_buy := side == "B".data
  if cfg.dry_run then
    if !closing then
      let position_size := if is_buy then size else -size
      (ledgerSet positions coin (ledgerGetD positions coin 0 + position_size), none)
    else (ledgerErase positions coin, none)
  else
    if closing then
      let positions := env.close_snapshot
      if !(ledgerHas positions coin) then (positions, none)
      else
        let our_position := ledgerGetD positions coin 0
        let closing_long := decide (0 < our_position) && !is_buy
        let closing_short := decide (our_position < 0) && is_buy
        if !(closing_long || closing_short) then (positions, none)
        else submit_order cfg env meta positions coin is_buy size price closing
    else submit_order cfg env meta positions coin is_buy size price closing

/-- How one call of `process_fill` ended: which `return` was taken. -/
inductive Outcome where
  | notTarget
  | duplicate
  | coinFiltered
  | maxPositions
  | noPosition
  | dirMismatch
  | belowExchangeMin
  | sizeSkip
  | placed
deriving DecidableEq, Repr

/-- Lines 489-570 of `process_fill` (everything after the wallet and
duplicate filters; those never touch `open_positions`, and this part never
touches `processed_fills`). Returns the new `open_positions`, the submitted
order, and the outcome tag. -/
def process_fill_body (cfg : Config) (env : Env) (meta : MetaMap)
    (positions : Ledger) (e : FillData) : Ledger × Option Order × Outcome :=
  let closing := is_closing e
  if coinBlocked cfg e.coin then (positions, none, .coinFiltered)
  else if !closing && !(ledgerHas positions e.coin)
      && cfg.max_open_positions ≤ positions.length then
    (positions, none, .maxPositions)
  else if closing then
    if !(ledgerHas positions e.coin) then (positions, none, .noPosition)
    else
      let our_size := |ledgerGetD positions e.coin 0|
      let our_position := ledgerGetD positions e.coin 0
      if e.dir ≠ [] && strHasSub e.dir ("Close Long".data)
          && decide (our_position < 0) then
        (positions, none, .dirMismatch)
      else if e.dir ≠ [] && strHasSub e.dir ("Close Short".data)
          && decide (0 < our_position) then
        (positions, none, .dirMismatch)
      else if our_size * e.px < min_notional_usd then
        (positions, none, .belowExchangeMin)
      else
        let r := place_order cfg env meta positions e.coin e.side our_size e.px true
        (r.1, r.2, .placed)
  else
    match calculate_position_size cfg
        (if cfg.dry_run then 100 else env.account_value_usd) meta e.sz e.px e.coin with
    | none => (positions, none, .sizeSkip)
    | some our_size =>
        let r := place_order cfg env meta positions e.coin e.side our_size e.px false
        (r.1, r.2, .placed)

/-- The mutable bot state: `self.processed_fills` (a set, insert-if-absent)
and `self.open_positions`. -/
structure BotState where
  processed_fills : List Str
  open_positions : Ledger
deriving DecidableEq, Repr

/-- Result of one `process_fill` call. -/
structure FillResult where
  state : BotState
  order : Option Order
  outcome : Outcome
deriving DecidableEq, Repr

/-- `CopyTradingBot.process_fill` (lines 465-570). -/
def process_fill (cfg : Config) (env : Env) (meta : MetaMap) (s : BotState)
    (wallet_address : Str) (e : FillData) : FillResult :=
  if strLower wallet_address ≠ cfg.target_wallet then ⟨s, none, .notTarget⟩
  else if s.processed_fills.contains (fillKey e) then ⟨s, none, .duplicate⟩
  else
    let b := process_fill_body cfg env meta s.open_positions e
    ⟨⟨fillKey e :: s.processed_fills, b.1⟩, b.2.1, b.2.2⟩

/-! ## Properties of Python rounding -/

/-- `pyRound` is within a half of its argument. -/
theorem pyRound_abs_le (x : ℚ) : |(pyRound x : ℚ) - x| ≤ 1 / 2 := by
  have hfr : Int.fract x = x - ⌊x⌋ := rfl
  have h0 : (0 : ℚ) ≤ Int.fract x := Int.fract_nonneg x
  have h1 : Int.fract x < 1 := Int.fract_lt_one x
  unfold pyRound
  split_ifs with hlt hgt hev
  · rw [abs_sub_comm, abs_of_nonneg (by linarith [hfr.ge, hfr.le] : (0:ℚ) ≤ x - ⌊x⌋)]
    linarith [hfr.symm.trans_lt hlt]
  · push_cast
    rw [abs_of_nonneg (by linarith [hfr] : (0:ℚ) ≤ (⌊x⌋ : ℚ) + 1 - x)]
    linarith
  · rw [abs_sub_comm, abs_of_nonneg (by linarith [hfr.le] : (0:ℚ) ≤ x - ⌊x⌋)]
    have : Int.fract x = 1 / 2 := le_antisymm (not_lt.mp hgt) (not_lt.mp hlt)
    linarith [hfr ▸ this]
  · push_cast
    rw [abs_of_nonneg (by linarith [h1] : (0:ℚ) ≤ (⌊x⌋ : ℚ) + 1 - x)]
    have : Int.fract x = 1 / 2 := le_antisymm (not_lt.mp hgt) (not_lt.mp hlt)
    linarith [hfr ▸ this]

/-- `pyRound` is strictly nearer than a half, or it rounded a tie to an even
integer. -/
theorem pyRound_tie_even (x : ℚ) :
    |(pyRound x : ℚ) - x| < 1 / 2 ∨ pyRound x % 2 = 0 := by
  have hfr : Int.fract x = x - ⌊x⌋ := rfl
  have h0 : (0 : ℚ) ≤ Int.fract x := Int.fract_nonneg x
  have h1 : Int.fract x < 1 := Int.fract_lt_one x
  unfold pyRound
  split_ifs with hlt hgt hev
  · left
    rw [abs_sub_comm, abs_of_nonneg (by linarith [hfr.le] : (0:ℚ) ≤ x - ⌊x⌋)]
    linarith [hfr ▸ hlt]
  · left
    push_cast
    rw [abs_of_nonneg (by linarith [h1] : (0:ℚ) ≤ (⌊x⌋ : ℚ) + 1 - x)]
    linarith
  · right; exact hev
  · right
    rcases Int.emod_two_eq_zero_or_one ⌊x⌋ with h | h
    · exact absurd h hev
    · omega

/-- `pyRoundTo x n` is the multiple of `10 ^ (-n)` nearest to `x`, with ties
rounded to the even multiple. -/
theorem pyRoundTo_char (x : ℚ) (n : ℕ) :
    ∃ k : ℤ, pyRoundTo x n = (k : ℚ) / 10 ^ n ∧
      |pyRoundTo x n - x| ≤ 1 / (2 * 10 ^ n) ∧
      (|pyRoundTo x n - x| < 1 / (2 * 10 ^ n) ∨ k % 2 = 0) := by
  have hd : (0 : ℚ) < 10 ^ n := by positivity
  have hsub : pyRoundTo x n - x = ((pyRound (x * 10 ^ n) : ℚ) - x * 10 ^ n) / 10 ^ n := by
    unfold pyRoundTo; field_simp; ring
  refine ⟨pyRound (x * 10 ^ n), rfl, ?_, ?_⟩
  · rw [hsub, abs_div, abs_of_pos hd]
    calc |(pyRound (x * 10 ^ n) : ℚ) - x * 10 ^ n| / 10 ^ n
        ≤ (1 / 2) / 10 ^ n := by gcongr; exact pyRound_abs_le (x * 10 ^ n)
      _ = 1 / (2 * 10 ^ n) := div_div 1 2 (10 ^ n)
  · rcases pyRound_tie_even (x * 10 ^ n) with h | h
    · left
      rw [hsub, abs_div, abs_of_pos hd, ← div_div 1 2 ((10:ℚ) ^ n)]
      gcongr
    · right; exact h

/-- Size decimals used by `_round_size` for a coin: the cached value, else the
default `4`. -/
def szDecimalsFor (meta : MetaMap) (coin : Str) : ℕ :=
  match metaLookup meta coin with
  | some m => m.szDecimals
  | none => 4

/-- Modelled from the spec: "half-up rounding to N decimal places" (claim C1),
stated on the raw size for comparison with the source's `_round_size`. -/
def roundHalfUpTo (x : ℚ) (n : ℕ) : ℚ := (⌊x * 10 ^ n + 1 / 2⌋ : ℚ) / 10 ^ n

/-- **C1 counterexample**: with `sizeDecimals = 2`, the raw size `0.125` is
rounded by the code to `0.12` (Python `round` is half-to-even), while the
claimed half-up rounding yields `0.13`. -/
theorem round_size_not_half_up_cex :
    round_size [("XYZ".data, ⟨2, 10, 1/100⟩)] "XYZ".data (1/8) = 12/100 ∧
    roundHalfUpTo (1/8) 2 = 13/100 ∧
    round_size [("XYZ".data, ⟨2, 10, 1/100⟩)] "XYZ".data (1/8) ≠ roundHalfUpTo (1/8) 2 := by
  refine ⟨?_, ?_, ?_⟩ <;>
    norm_num [round_size, roundHalfUpTo, metaLookup, pyRoundTo, pyRound, Int.fract]

/-- **C1 (amended)**: for every symbol and raw size, `_round_size` returns the
multiple of `10^(-sizeDecimals)` nearest to the raw size — half-to-even, not
half-up — using 4 decimal places when no metadata is cached for the symbol. -/
theorem round_size_nearest_half_even (meta : MetaMap) (coin : Str) (x : ℚ) :
    ∃ k : ℤ, round_size meta coin x = (k : ℚ) / 10 ^ szDecimalsFor meta coin ∧
      |round_size meta coin x - x| ≤ 1 / (2 * 10 ^ szDecimalsFor meta coin) ∧
      (|round_size meta coin x - x| < 1 / (2 * 10 ^ szDecimalsFor meta coin) ∨
        k % 2 = 0) := by
  unfold round_size szDecimalsFor
  cases metaLookup meta coin with
  | some m => exact pyRoundTo_char x m.szDecimals
  | none => exact pyRoundTo_char x 4

/-! ## C2: the notional floor of the sizing engine -/

/-- **C2**: every computed Open sizing decision either skips (returns `none`)
or returns a rounded size whose notional at the target price is at least the
10 USD exchange minimum. -/
theorem calculate_position_size_notional_floor (cfg : Config)
    (account_value_usd target_size target_price : ℚ) (meta : MetaMap)
    (coin : Str) (s : ℚ)
    (h : calculate_position_size cfg account_value_usd meta target_size
      target_price coin = some s) :
    min_notional_usd ≤ s * target_price := by
  simp only [calculate_position_size] at h
  set v := if cfg.max_position_usd < account_value_usd * (cfg.copy_percentage / 100)
    then cfg.max_position_usd else account_value_usd * (cfg.copy_percentage / 100) with hv
  by_cases hmin : v < cfg.min_position_usd
  · simp [hmin] at h
  · by_cases hnot :
        round_size meta coin (v / target_price) * target_price < min_notional_usd
    · simp [hmin, hnot] at h
    · simp only [hmin, hnot, if_false, Option.some.injEq] at h
      rw [← h]; exact not_lt.mp hnot

/-- Witness for C2 at a concrete input (5% of a 1000 USD account at price
2000 with no cached metadata gives size 0.025). -/
theorem calculate_position_size_notional_floor_witness :
    min_notional_usd ≤ (1/40 : ℚ) * 2000 :=
  calculate_position_size_notional_floor
    ⟨"0xabc".data, 5, true, 100, 10, 4, 1/2, "ALL".data, none⟩
    1000 10 2000 [] "ETH".data (1/40)
    (by norm_num [calculate_position_size, round_size, metaLookup, pyRoundTo,
      pyRound, Int.fract, min_notional_usd])

/-! ## C9: the open/close classifier -/

/-- A list starting with `"Open"` does not start with `"Close"`. -/
theorem strStarts_open_not_close {s : Str}
    (h : strStarts s ("Open".data) = true) :
    strStarts s ("Close".data) = false := by
  by_contra hc
  rw [Bool.not_eq_false] at hc
  unfold strStarts at h hc
  rw [List.isPrefixOf_iff_prefix] at h hc
  rcases List.prefix_or_prefix_of_prefix h hc with hh | hh
  · rcases hh with ⟨t, ht⟩; simp at ht
  · rcases hh with ⟨t, ht⟩; simp at ht

/-- A list with a nonempty prefix is nonempty. -/
theorem strStarts_ne_nil {s pat : Str} (hp : pat ≠ [])
    (h : strStarts s pat = true) : s ≠ [] := by
  rintro rfl
  unfold strStarts at h
  rw [List.isPrefixOf_iff_prefix, List.prefix_nil] at h
  exact hp h

/-- **C9**: the classifier labels an event Close if `dir` starts with
`"Close"`, Open if it starts with `"Open"`, and when `dir` is absent or empty
it labels it Close exactly when `closedPnl` is nonzero, otherwise Open. -/
theorem classify_by_direction (e : FillData) :
    (strStarts e.dir ("Close".data) = true → is_closing e = true) ∧
    (strStarts e.dir ("Open".data) = true →
      is_opening e = true ∧ is_closing e = false) ∧
    (e.dir = [] →
      ((is_closing e = true ↔ e.closedPnl ≠ 0) ∧
       (is_opening e = true ↔ e.closedPnl = 0))) := by
  refine ⟨fun h => ?_, fun h => ⟨?_, ?_⟩, fun h => ⟨?_, ?_⟩⟩
  · have hne : e.dir ≠ [] := strStarts_ne_nil (by decide) h
    simp [is_closing, hne, h]
  · have hne : e.dir ≠ [] := strStarts_ne_nil (by decide) h
    simp [is_opening, hne, h]
  · have hne : e.dir ≠ [] := strStarts_ne_nil (by decide) h
    simp [is_closing, hne, strStarts_open_not_close h]
  · simp [is_closing, h]
  · simp [is_opening, is_closing, h]

/-- Witness for C9 at a concrete event carrying `dir = "Close Long"`. -/
theorem classify_by_direction_witness :
    is_closing ⟨[], [], [], [], 0, 0, 0, "Close Long".data⟩ = true :=
  (classify_by_direction ⟨[], [], [], [], 0, 0, 0, "Close Long".data⟩).1
    (by decide)

/-! ## Shape of submitted orders -/

/-- `submit_order` always submits, and the submitted order records the coin,
side, size, slippage-adjusted tick-rounded price, and the reduce-only flag. -/
theorem submit_order_snd (cfg : Config) (env : Env) (meta : MetaMap)
    (positions : Ledger) (coin : Str) (is_buy : Bool) (size price : ℚ)
    (closing : Bool) :
    (submit_order cfg env meta positions coin is_buy size price closing).2 =
      some ⟨coin, is_buy, size,
        round_price meta coin
          (if !closing && decide (0 < cfg.slippage_tolerance_pct) then
            (if is_buy then price * (1 + cfg.slippage_tolerance_pct / 100)
             else price * (1 - cfg.slippage_tolerance_pct / 100))
           else price), closing⟩ := by
  unfold submit_order
  cases env.order_result <;> rfl

/-- Any order `place_order` submits: live mode only, with the source's coin,
side, size and price; a close submission moreover passed the post-resync
existence and direction checks against the exchange snapshot. -/
theorem place_order_order_spec (cfg : Config) (env : Env) (meta : MetaMap)
    (positions : Ledger) (coin : Str) (side : Str) (size price : ℚ)
    (closing : Bool) (o : Order)
    (h : (place_order cfg env meta positions coin side size price closing).2 =
      some o) :
    cfg.dry_run = false ∧
    o = ⟨coin, side == "B".data, size,
        round_price meta coin
          (if !closing && decide (0 < cfg.slippage_tolerance_pct) then
            (if side == "B".data then price * (1 + cfg.slippage_tolerance_pct / 100)
             else price * (1 - cfg.slippage_tolerance_pct / 100))
           else price), closing⟩ ∧
    (closing = true →
      ledgerHas env.close_snapshot coin = true ∧
      ((0 < ledgerGetD env.close_snapshot coin 0 ∧ (side == "B".data) = false) ∨
       (ledgerGetD env.close_snapshot coin 0 < 0 ∧ (side == "B".data) = true))) := by
  simp only [place_order] at h
  by_cases hdry : cfg.dry_run = true
  · rw [hdry] at h
    simp only [if_true] at h
    split_ifs at h
  · rw [Bool.not_eq_true] at hdry
    rw [hdry] at h
    simp only [Bool.false_eq_true, if_false] at h
    refine ⟨hdry, ?_⟩
    by_cases hcl : closing = true
    · subst hcl
      simp only [if_true] at h
      by_cases hhas : ledgerHas env.close_snapshot coin = true
      · rw [hhas] at h
        simp only [Bool.not_true, Bool.false_eq_true, if_false] at h
        by_cases hdir : (decide (0 < ledgerGetD env.close_snapshot coin 0) &&
            !(side == "B".data) ||
            decide (ledgerGetD env.close_snapshot coin 0 < 0) && (side == "B".data)) = true
        · rw [hdir] at h
          simp only [Bool.not_true, Bool.false_eq_true, if_false,
            submit_order_snd, Option.some.injEq] at h
          refine ⟨h.symm, fun _ => ⟨hhas, ?_⟩⟩
          rcases Bool.or_eq_true_iff.mp hdir with hl | hr
          · exact Or.inl ⟨of_decide_eq_true (Bool.and_eq_true_iff.mp hl).1,
              by simpa using (Bool.and_eq_true_iff.mp hl).2⟩
          · exact Or.inr ⟨of_decide_eq_true (Bool.and_eq_true_iff.mp hr).1,
              (Bool.and_eq_true_iff.mp hr).2⟩
        · rw [Bool.not_eq_true] at hdir
          rw [hdir] at h
          simp at h
      · rw [Bool.not_eq_true] at hhas
        rw [hhas] at h
        simp at h
    · rw [Bool.not_eq_true] at hcl
      subst hcl
      simp only [Bool.false_eq_true, if_false, submit_order_snd,
        Option.some.injEq] at h
      exact ⟨h.symm, by simp⟩

/-- Any order the post-filter body of `process_fill` submits: live mode only,
the event's coin and side, reduce-only exactly for closes; a close order's
size is the absolute cached ledger size and its direction was validated
against the exchange snapshot; prices carry slippage (opens only) and tick
rounding. -/
theorem body_order_spec (cfg : Config) (env : Env) (meta : MetaMap)
    (positions : Ledger) (e : FillData) (o : Order)
    (h : (process_fill_body cfg env meta positions e).2.1 = some o) :
    cfg.dry_run = false ∧
    o.coin = e.coin ∧
    o.is_buy = (e.side == "B".data) ∧
    o.reduce_only = is_closing e ∧
    o.limit_px = round_price meta e.coin
      (if is_closing e = true then e.px
       else if 0 < cfg.slippage_tolerance_pct then
        (if (e.side == "B".data) = true then
          e.px * (1 + cfg.slippage_tolerance_pct / 100)
         else e.px * (1 - cfg.slippage_tolerance_pct / 100))
       else e.px) ∧
    (is_closing e = true →
      o.size = |ledgerGetD positions e.coin 0| ∧
      ledgerHas env.close_snapshot e.coin = true ∧
      ((0 < ledgerGetD env.close_snapshot e.coin 0 ∧ o.is_buy = false) ∨
       (ledgerGetD env.close_snapshot e.coin 0 < 0 ∧ o.is_buy = true))) := by
  simp only [process_fill_body] at h
  by_cases hblk : coinBlocked cfg e.coin = true
  · rw [hblk] at h
    simp at h
  · rw [Bool.not_eq_true] at hblk
    rw [hblk] at h
    simp only [Bool.false_eq_true, if_false] at h
    by_cases hcl : is_closing e = true
    · rw [hcl] at h
      simp only [Bool.not_true, Bool.false_and, Bool.false_eq_true, if_false,
        if_true] at h
      by_cases hhas : ledgerHas positions e.coin = true
      · rw [hhas] at h
        simp only [Bool.not_true, Bool.false_eq_true, if_false] at h
        split_ifs at h with hd1 hd2 hd3
        any_goals simp at h
        obtain ⟨hdry, ho, hclose⟩ := place_order_order_spec cfg env meta
          positions e.coin e.side (|ledgerGetD positions e.coin 0|) e.px true o h
        subst ho
        refine ⟨hdry, rfl, rfl, by rw [hcl], ?_, fun _ => ⟨rfl, hclose rfl⟩⟩
        rw [hcl]
        simp
      · rw [Bool.not_eq_true] at hhas
        rw [hhas] at h
        simp at h
    · rw [Bool.not_eq_true] at hcl
      rw [hcl] at h
      simp only [Bool.not_false, Bool.true_and, Bool.false_eq_true,
        if_false] at h
      by_cases hgate : (!ledgerHas positions e.coin &&
          decide (cfg.max_open_positions ≤ positions.length)) = true
      · rw [hgate] at h
        simp at h
      · rw [Bool.not_eq_true] at hgate
        rw [hgate] at h
        simp only [Bool.false_eq_true, if_false] at h
        cases hsize : calculate_position_size cfg
            (if cfg.dry_run = true then 100 else env.account_value_usd) meta
            e.sz e.px e.coin with
        | none =>
          rw [hsize] at h
          simp at h
        | some sz =>
          rw [hsize] at h
          simp only at h
          obtain ⟨hdry, ho, -⟩ := place_order_order_spec cfg env meta
            positions e.coin e.side sz e.px false o h
          subst ho
          refine ⟨hdry, rfl, rfl, by rw [hcl], ?_, by rw [hcl]; simp⟩
          rw [hcl]
          simp only [Bool.false_eq_true, if_false, Bool.not_false,
            Bool.true_and, decide_eq_true_eq]

/-- If `process_fill` submitted an order, the post-filter body did. -/
theorem process_fill_order_eq (cfg : Config) (env : Env) (meta : MetaMap)
    (s : BotState) (wallet_address : Str) (e : FillData) (o : Order)
    (h : (process_fill cfg env meta s wallet_address e).order = some o) :
    (process_fill_body cfg env meta s.open_positions e).2.1 = some o := by
  unfold process_fill at h
  split_ifs at h with h1 h2
  any_goals simp at h
  simpa using h

/-! ## C5, C6, C7: close sizing, direction safety, pricing -/

/-- Evaluation of `process_fill` on a concrete live-mode close where the
cached ledger holds ETH 0.05 long but the exchange snapshot installed by the
pre-close resync holds only ETH 0.02 long: the submitted size is the cached
0.05, not the reconciled 0.02. -/
theorem staleCloseRun :
    process_fill
      ⟨"0xabc".data, 5, false, 100, 10, 4, 1/2, "ALL".data, none⟩
      ⟨1000, [("ETH".data, 2/100)], [], .filled (5/100) 2000⟩
      [] ⟨[], [("ETH".data, 5/100)]⟩ "0xabc".data
      ⟨"h2".data, "t2".data, "ETH".data, "A".data, 1, 2000, 3, "Close Long".data⟩ =
    ⟨⟨["h2_t2".data], []⟩, some ⟨"ETH".data, false, 5/100, 2000, true⟩,
      .placed⟩ := by
  norm_num +decide [process_fill, process_fill_body, place_order, submit_order,
    calculate_position_size, is_closing, is_opening, strStarts, strHasSub,
    coinBlocked, fillKey, strLower, ledgerHas, ledgerGet, ledgerGetD, ledgerSet,
    ledgerErase, metaLookup, round_price, round_size, pyRoundTo, pyRound,
    min_notional_usd, Int.fract, abs_of_pos]

/-- **C5 counterexample**: in the run of `staleCloseRun` the submitted close
order has size 0.05 — the cached ledger value — while the absolute reconciled
ledger size for ETH is 0.02, so the submitted size is not the reconciled one
and the follower attempts to close more than it holds. -/
theorem close_size_not_reconciled_cex :
    (process_fill
      ⟨"0xabc".data, 5, false, 100, 10, 4, 1/2, "ALL".data, none⟩
      ⟨1000, [("ETH".data, 2/100)], [], .filled (5/100) 2000⟩
      [] ⟨[], [("ETH".data, 5/100)]⟩ "0xabc".data
      ⟨"h2".data, "t2".data, "ETH".data, "A".data, 1, 2000, 3,
        "Close Long".data⟩).order =
      some ⟨"ETH".data, false, 5/100, 2000, true⟩ ∧
    ledgerGetD [("ETH".data, (2/100 : ℚ))] "ETH".data 0 = 2/100 ∧
    (5/100 : ℚ) ≠ |(2/100 : ℚ)| := by
  refine ⟨?_, ?_,
    by rw [abs_of_pos (by norm_num : (0:ℚ) < 2/100)]; norm_num⟩
  · rw [staleCloseRun]
  · norm_num +decide [ledgerGetD, ledgerGet]

/-- **C5 (amended)**: every submitted Close order's size is the absolute value
of the follower's ledger size for the symbol as cached when the fill was
classified; the target's fill size is never used. (The pre-close
reconciliation only gates whether the order is sent.) -/
theorem close_size_from_cached_ledger (cfg : Config) (env : Env)
    (meta : MetaMap) (s : BotState) (wallet_address : Str) (e : FillData)
    (o : Order)
    (h : (process_fill cfg env meta s wallet_address e).order = some o)
    (hro : o.reduce_only = true) :
    o.size = |ledgerGetD s.open_positions e.coin 0| := by
  have hb := process_fill_order_eq cfg env meta s wallet_address e o h
  obtain ⟨-, -, -, hrc, -, hclose⟩ := body_order_spec cfg env meta
    s.open_positions e o hb
  exact (hclose (hrc.symm.trans hro)).1

/-- Witness for the amended C5 on the `staleCloseRun` input: the submitted
size equals the cached |0.05|. -/
theorem close_size_from_cached_ledger_witness :
    (5/100 : ℚ) = |ledgerGetD [("ETH".data, (5/100 : ℚ))] "ETH".data 0| := by
  have := close_size_from_cached_ledger
    ⟨"0xabc".data, 5, false, 100, 10, 4, 1/2, "ALL".data, none⟩
    ⟨1000, [("ETH".data, 2/100)], [], .filled (5/100) 2000⟩
    [] ⟨[], [("ETH".data, 5/100)]⟩ "0xabc".data
    ⟨"h2".data, "t2".data, "ETH".data, "A".data, 1, 2000, 3, "Close Long".data⟩
    ⟨"ETH".data, false, 5/100, 2000, true⟩
    (by rw [staleCloseRun]) rfl
  exact this

/-- **C6**: every submitted Close (reduce-only) order passed the existence and
direction checks against the exchange snapshot installed by the pre-close
reconciliation: the symbol is present there, and the order side shrinks the
reconciled position (sell against a long, buy against a short), never grows
it. -/
theorem close_direction_safety (cfg : Config) (env : Env) (meta : MetaMap)
    (s : BotState) (wallet_address : Str) (e : FillData) (o : Order)
    (h : (process_fill cfg env meta s wallet_address e).order = some o)
    (hro : o.reduce_only = true) :
    ledgerHas env.close_snapshot o.coin = true ∧
      ((0 < ledgerGetD env.close_snapshot o.coin 0 ∧ o.is_buy = false) ∨
       (ledgerGetD env.close_snapshot o.coin 0 < 0 ∧ o.is_buy = true)) := by
  have hb := process_fill_order_eq cfg env meta s wallet_address e o h
  obtain ⟨-, hcoin, -, hrc, -, hclose⟩ := body_order_spec cfg env meta
    s.open_positions e o hb
  obtain ⟨-, hsnap, hdir⟩ := hclose (hrc.symm.trans hro)
  rw [hcoin]
  exact ⟨hsnap, hdir⟩

/-- Witness for C6 on the `staleCloseRun` input: the reconciled snapshot holds
ETH long 0.02 and the submitted close is a sell. -/
theorem close_direction_safety_witness :
    ledgerHas [("ETH".data, (2/100 : ℚ))] "ETH".data = true ∧
      ((0 < ledgerGetD [("ETH".data, (2/100 : ℚ))] "ETH".data 0 ∧
          false = false) ∨
       (ledgerGetD [("ETH".data, (2/100 : ℚ))] "ETH".data 0 < 0 ∧
          false = true)) :=
  close_direction_safety
    ⟨"0xabc".data, 5, false, 100, 10, 4, 1/2, "ALL".data, none⟩
    ⟨1000, [("ETH".data, 2/100)], [], .filled (5/100) 2000⟩
    [] ⟨[], [("ETH".data, 5/100)]⟩ "0xabc".data
    ⟨"h2".data, "t2".data, "ETH".data, "A".data, 1, 2000, 3, "Close Long".data⟩
    ⟨"ETH".data, false, 5/100, 2000, true⟩
    (by rw [staleCloseRun]) rfl

/-- **C7**: with slippage tolerance `t > 0`, every submitted order is priced
from the target price — an opening buy at `px * (1 + t/100)`, an opening sell
at `px * (1 - t/100)`, a close at the raw `px` — and then tick-rounded by
`_round_price` (which is `round(price / tickSize) * tickSize` on cached
metadata and 2-decimal rounding otherwise). -/
theorem submitted_price_slippage_and_tick (cfg : Config) (env : Env)
    (meta : MetaMap) (s : BotState) (wallet_address : Str) (e : FillData)
    (o : Order) (ht : 0 < cfg.slippage_tolerance_pct)
    (h : (process_fill cfg env meta s wallet_address e).order = some o) :
    o.limit_px = round_price meta o.coin
      (if o.reduce_only = true then e.px
       else if o.is_buy = true then
        e.px * (1 + cfg.slippage_tolerance_pct / 100)
       else e.px * (1 - cfg.slippage_tolerance_pct / 100)) := by
  have hb := process_fill_order_eq cfg env meta s wallet_address e o h
  obtain ⟨-, hcoin, hbuy, hrc, hpx, -⟩ := body_order_spec cfg env meta
    s.open_positions e o hb
  rw [hpx, hcoin, hrc, hbuy]
  by_cases hcl : is_closing e = true
  · rw [if_pos hcl, if_pos hcl]
  · rw [if_neg hcl, if_neg hcl, if_pos ht]

/-- Witness for C7 on the `staleCloseRun` input (tolerance 0.5 > 0; the close
is submitted at the raw target price 2000, tick-rounded with no metadata). -/
theorem submitted_price_slippage_and_tick_witness :
    (2000 : ℚ) = round_price [] "ETH".data
      (if true = true then (2000 : ℚ)
       else if false = true then 2000 * (1 + (1/2 : ℚ) / 100)
       else 2000 * (1 - (1/2 : ℚ) / 100)) := by
  have := submitted_price_slippage_and_tick
    ⟨"0xabc".data, 5, false, 100, 10, 4, 1/2, "ALL".data, none⟩
    ⟨1000, [("ETH".data, 2/100)], [], .filled (5/100) 2000⟩
    [] ⟨[], [("ETH".data, 5/100)]⟩ "0xabc".data
    ⟨"h2".data, "t2".data, "ETH".data, "A".data, 1, 2000, 3, "Close Long".data⟩
    ⟨"ETH".data, false, 5/100, 2000, true⟩
    (by norm_num) (by rw [staleCloseRun])
  exact this

/-! ## C3, C4: deduplication and the coin filter -/

/-- On a fresh (non-duplicate) event from the target wallet, `process_fill`
inserts the dedup key and runs the body on the cached positions. -/
theorem process_fill_fresh (cfg : Config) (env : Env) (meta : MetaMap)
    (s : BotState) (wallet_address : Str) (e : FillData)
    (hw : strLower wallet_address = cfg.target_wallet)
    (hd : s.processed_fills.contains (fillKey e) = false) :
    process_fill cfg env meta s wallet_address e =
      ⟨⟨fillKey e :: s.processed_fills,
        (process_fill_body cfg env meta s.open_positions e).1⟩,
       (process_fill_body cfg env meta s.open_positions e).2.1,
       (process_fill_body cfg env meta s.open_positions e).2.2⟩ := by
  unfold process_fill
  rw [if_neg (by simp [hw]), if_neg (by simpa using hd)]

/-- **C3**: delivering the same event a second time is a no-op — the second
call leaves the whole state (processed-fill set and ledger) unchanged and
submits no order, so duplicate deliveries yield at most one order. -/
theorem process_fill_idempotent (cfg : Config) (env : Env) (meta : MetaMap)
    (s : BotState) (wallet_address : Str) (e : FillData) :
    (process_fill cfg env meta
        (process_fill cfg env meta s wallet_address e).state
        wallet_address e).state =
      (process_fill cfg env meta s wallet_address e).state ∧
    (process_fill cfg env meta
        (process_fill cfg env meta s wallet_address e).state
        wallet_address e).order = none := by
  by_cases hw : strLower wallet_address ≠ cfg.target_wallet
  · simp [process_fill, hw]
  · rw [not_not] at hw
    by_cases hd : s.processed_fills.contains (fillKey e) = true
    · have hd' : fillKey e ∈ s.processed_fills := by simpa using hd
      simp [process_fill, hw, hd']
    · rw [Bool.not_eq_true] at hd
      rw [process_fill_fresh cfg env meta s wallet_address e hw hd]
      constructor
      · simp [process_fill, hw]
      · simp [process_fill, hw]

/-- **C4 counterexample**: with filter mode ENABLED and allow-set {BTC}, an
ETH event from the target wallet is discarded by the coin filter, yet its
ProcessedFillKey is inserted first: the processed-fill set is not left
unchanged. -/
theorem coin_filter_inserts_key_cex :
    (process_fill
      ⟨"0xabc".data, 5, true, 100, 10, 4, 1/2, "ENABLED".data,
        some ["BTC".data]⟩
      ⟨1000, [], [], .filled 0 0⟩ [] ⟨[], []⟩ "0xABC".data
      ⟨"h1".data, "t1".data, "ETH".data, "B".data, 10, 2000, 0,
        "Open Long".data⟩).outcome = .coinFiltered ∧
    (process_fill
      ⟨"0xabc".data, 5, true, 100, 10, 4, 1/2, "ENABLED".data,
        some ["BTC".data]⟩
      ⟨1000, [], [], .filled 0 0⟩ [] ⟨[], []⟩ "0xABC".data
      ⟨"h1".data, "t1".data, "ETH".data, "B".data, 10, 2000, 0,
        "Open Long".data⟩).state.processed_fills = ["h1_t1".data] ∧
    ["h1_t1".data] ≠ ([] : List Str) := by
  decide

/-- **C4 (amended)**: with a truthy allow-set in ENABLED mode, a fresh
disallowed-coin event from the target is discarded — no order, no ledger
change — but only after its ProcessedFillKey has been inserted into the
processed-fill set. -/
theorem coin_filter_after_dedup_insert (cfg : Config) (env : Env)
    (meta : MetaMap) (s : BotState) (wallet_address : Str) (e : FillData)
    (hw : strLower wallet_address = cfg.target_wallet)
    (hd : s.processed_fills.contains (fillKey e) = false)
    (hc : coinBlocked cfg e.coin = true) :
    process_fill cfg env meta s wallet_address e =
      ⟨⟨fillKey e :: s.processed_fills, s.open_positions⟩, none,
        .coinFiltered⟩ := by
  rw [process_fill_fresh cfg env meta s wallet_address e hw hd]
  unfold process_fill_body
  rw [hc]
  simp

/-- Witness for the amended C4 at the concrete ENABLED/{BTC} configuration
and a fresh ETH event. -/
theorem coin_filter_after_dedup_insert_witness :
    process_fill
      ⟨"0xabc".data, 5, true, 100, 10, 4, 1/2, "ENABLED".data,
        some ["BTC".data]⟩
      ⟨1000, [], [], .filled 0 0⟩ [] ⟨[], []⟩ "0xABC".data
      ⟨"h1".data, "t1".data, "ETH".data, "B".data, 10, 2000, 0,
        "Open Long".data⟩ =
      ⟨⟨["h1_t1".data], []⟩, none, .coinFiltered⟩ :=
  coin_filter_after_dedup_insert _ _ _ _ _ _ (by decide) (by decide) (by decide)

/-! ## C8: the position-count cap -/

theorem nonzeroCount_le_length (l : Ledger) : nonzeroCount l ≤ l.length :=
  List.length_filter_le _ l

theorem ledgerSet_length_of_has {l : Ledger} {coin : Str}
    (h : ledgerHas l coin = true) (v : ℚ) :
    (ledgerSet l coin v).length = l.length := by
  unfold ledgerSet
  rw [if_pos h, List.length_map]

theorem ledgerSet_length_of_not_has {l : Ledger} {coin : Str}
    (h : ledgerHas l coin = false) (v : ℚ) :
    (ledgerSet l coin v).length = l.length + 1 := by
  unfold ledgerSet
  rw [if_neg (by simp [h]), List.length_append, List.length_singleton]

/-- Evaluation of `process_fill` on a concrete live-mode open with
`max_open_positions = 1`: the cached ledger holds only BTC, the gate passes
(BTC is already held), but the post-open reconciliation snapshot installs two
nonzero positions. -/
theorem overfullOpenRun :
    process_fill
      ⟨"0xabc".data, 5, false, 100, 10, 1, 1/2, "ALL".data, none⟩
      ⟨1000, [], [("BTC".data, 1), ("ETH".data, 2)], .filled (1/40) 2000⟩
      [] ⟨[], [("BTC".data, 1)]⟩ "0xabc".data
      ⟨"h3".data, "t3".data, "BTC".data, "B".data, 10, 2000, 0,
        "Open Long".data⟩ =
    ⟨⟨["h3_t3".data], [("BTC".data, 1), ("ETH".data, 2)]⟩,
      some ⟨"BTC".data, true, 1/40, 2010, false⟩, .placed⟩ := by
  norm_num +decide [process_fill, process_fill_body, place_order, submit_order,
    calculate_position_size, is_closing, is_opening, strStarts, strHasSub,
    coinBlocked, fillKey, strLower, ledgerHas, ledgerGet, ledgerGetD, ledgerSet,
    ledgerErase, metaLookup, round_price, round_size, pyRoundTo, pyRound,
    min_notional_usd, Int.fract, abs_of_pos]

/-- **C8 counterexample**: immediately after processing an Open decision in
the `overfullOpenRun` input, the ledger holds 2 nonzero entries although
`max_open_positions = 1` — the post-open reconciliation snapshot, not the
gate, dictates the final count. -/
theorem max_positions_invariant_cex :
    (process_fill
      ⟨"0xabc".data, 5, false, 100, 10, 1, 1/2, "ALL".data, none⟩
      ⟨1000, [], [("BTC".data, 1), ("ETH".data, 2)], .filled (1/40) 2000⟩
      [] ⟨[], [("BTC".data, 1)]⟩ "0xabc".data
      ⟨"h3".data, "t3".data, "BTC".data, "B".data, 10, 2000, 0,
        "Open Long".data⟩).outcome = .placed ∧
    is_closing ⟨"h3".data, "t3".data, "BTC".data, "B".data, 10, 2000, 0,
      "Open Long".data⟩ = false ∧
    [(("BTC".data : Str), (1 : ℚ))].length ≤ 1 ∧
    nonzeroCount (process_fill
      ⟨"0xabc".data, 5, false, 100, 10, 1, 1/2, "ALL".data, none⟩
      ⟨1000, [], [("BTC".data, 1), ("ETH".data, 2)], .filled (1/40) 2000⟩
      [] ⟨[], [("BTC".data, 1)]⟩ "0xabc".data
      ⟨"h3".data, "t3".data, "BTC".data, "B".data, 10, 2000, 0,
        "Open Long".data⟩).state.open_positions = 2 ∧
    ¬(2 ≤ 1) := by
  refine ⟨?_, by decide, by decide, ?_, by decide⟩
  · rw [overfullOpenRun]
  · rw [overfullOpenRun]
    decide

/-- The body's outcome is `maxPositions` exactly when the event survived the
coin filter, was classified Open, its coin is not yet held, and the ledger is
already at capacity. -/
theorem body_outcome_max_iff (cfg : Config) (env : Env) (meta : MetaMap)
    (positions : Ledger) (e : FillData) :
    ((process_fill_body cfg env meta positions e).2.2 = .maxPositions ↔
      (coinBlocked cfg e.coin = false ∧ is_closing e = false ∧
        ledgerHas positions e.coin = false ∧
        cfg.max_open_positions ≤ positions.length)) := by
  constructor
  · intro hmax
    simp only [process_fill_body] at hmax
    by_cases hblk : coinBlocked cfg e.coin = true
    · rw [hblk] at hmax; simp at hmax
    · rw [Bool.not_eq_true] at hblk
      rw [hblk] at hmax
      simp only [Bool.false_eq_true, if_false] at hmax
      by_cases hcl : is_closing e = true
      · exfalso
        rw [hcl] at hmax
        simp only [Bool.not_true, Bool.false_and, Bool.false_eq_true, if_false,
          if_true, eq_self_iff_true] at hmax
        by_cases hhas : ledgerHas positions e.coin = true
        · rw [hhas] at hmax
          simp only [Bool.not_true, Bool.false_eq_true, if_false] at hmax
          split at hmax
          · simp at hmax
          · split at hmax
            · simp at hmax
            · split at hmax
              · simp at hmax
              · simp at hmax
        · rw [Bool.not_eq_true] at hhas
          rw [hhas] at hmax
          simp at hmax
      · rw [Bool.not_eq_true] at hcl
        rw [hcl] at hmax
        simp only [Bool.not_false, Bool.true_and, Bool.false_eq_true,
          if_false] at hmax
        by_cases hgate : (!ledgerHas positions e.coin &&
            decide (cfg.max_open_positions ≤ positions.length)) = true
        · rcases Bool.and_eq_true_iff.mp hgate with ⟨h1, h2⟩
          exact ⟨hblk, hcl, by simpa using h1, of_decide_eq_true h2⟩
        · exfalso
          rw [Bool.not_eq_true] at hgate
          rw [hgate] at hmax
          simp only [Bool.false_eq_true, if_false] at hmax
          cases hsize : calculate_position_size cfg
              (if cfg.dry_run = true then 100 else env.account_value_usd) meta
              e.sz e.px e.coin with
          | none => rw [hsize] at hmax; simp at hmax
          | some sz => rw [hsize] at hmax; simp at hmax
  · rintro ⟨hblk, hcl, hhas, hlen⟩
    simp only [process_fill_body]
    rw [hblk, hcl, hhas]
    simp [decide_eq_true hlen]

/-- Whenever an Open event reaches the gate with the ledger within capacity and
the post-open reconciliation snapshot also within capacity, the ledger after
the body has at most `max_open_positions` nonzero entries. -/
theorem body_open_count_le (cfg : Config) (env : Env) (meta : MetaMap)
    (positions : Ledger) (e : FillData)
    (hcl : is_closing e = false)
    (hlen : positions.length ≤ cfg.max_open_positions)
    (hsnap : env.open_snapshot.length ≤ cfg.max_open_positions) :
    nonzeroCount (process_fill_body cfg env meta positions e).1 ≤
      cfg.max_open_positions := by
  have hbase := le_trans (nonzeroCount_le_length positions) hlen
  have hsnap' := le_trans (nonzeroCount_le_length env.open_snapshot) hsnap
  simp only [process_fill_body]
  by_cases hblk : coinBlocked cfg e.coin = true
  · rw [hblk]; simpa using hbase
  · rw [Bool.not_eq_true] at hblk
    rw [hblk, hcl]
    simp only [Bool.false_eq_true, if_false, Bool.not_false, Bool.true_and]
    by_cases hgate : (!ledgerHas positions e.coin &&
        decide (cfg.max_open_positions ≤ positions.length)) = true
    · rw [hgate]
      simpa using hbase
    · rw [Bool.not_eq_true] at hgate
      rw [hgate]
      simp only [Bool.false_eq_true, if_false]
      cases hsize : calculate_position_size cfg
          (if cfg.dry_run = true then 100 else env.account_value_usd) meta
          e.sz e.px e.coin with
      | none => simpa using hbase
      | some sz =>
        simp only []
        have hplace : nonzeroCount (place_order cfg env meta positions e.coin
            e.side sz e.px false).1 ≤ cfg.max_open_positions := by
          simp only [place_order]
          by_cases hdry : cfg.dry_run = true
          · rw [hdry]
            simp only [if_true, Bool.not_false]
            by_cases hhas : ledgerHas positions e.coin = true
            · calc nonzeroCount (ledgerSet positions e.coin
                    (ledgerGetD positions e.coin 0 +
                      if (e.side == "B".data) = true then sz else -sz)) ≤
                  (ledgerSet positions e.coin
                    (ledgerGetD positions e.coin 0 +
                      if (e.side == "B".data) = true then sz else -sz)).length :=
                    nonzeroCount_le_length _
                _ = positions.length := ledgerSet_length_of_has hhas _
                _ ≤ cfg.max_open_positions := hlen
            · rw [Bool.not_eq_true] at hhas
              have hlt : positions.length < cfg.max_open_positions := by
                rw [hhas] at hgate
                simp only [Bool.not_false, Bool.true_and] at hgate
                have := of_decide_eq_false hgate
                omega
              calc nonzeroCount (ledgerSet positions e.coin
                    (ledgerGetD positions e.coin 0 +
                      if (e.side == "B".data) = true then sz else -sz)) ≤
                  (ledgerSet positions e.coin
                    (ledgerGetD positions e.coin 0 +
                      if (e.side == "B".data) = true then sz else -sz)).length :=
                    nonzeroCount_le_length _
                _ = positions.length + 1 := ledgerSet_length_of_not_has hhas _
                _ ≤ cfg.max_open_positions := hlt
          · rw [Bool.not_eq_true] at hdry
            rw [hdry]
            simp only [Bool.false_eq_true, if_false]
            simp only [submit_order]
            cases env.order_result <;> simp <;> assumption
        simpa using hplace

/-- **C8 (amended)**: the gate rejects with `MAX_POSITIONS` exactly when an
Open event's symbol is new and the ledger already has `max_open_positions`
entries; Close events are never rejected by the cap; and after an Open
decision the nonzero-entry count stays within the cap *provided* the ledger
was within the cap before and the post-open reconciliation snapshot from the
exchange is within the cap (the snapshot, an external input, replaces the
ledger wholesale). -/
theorem max_positions_gate (cfg : Config) (env : Env) (meta : MetaMap)
    (s : BotState) (wallet_address : Str) (e : FillData)
    (hw : strLower wallet_address = cfg.target_wallet)
    (hd : s.processed_fills.contains (fillKey e) = false)
    (hc : coinBlocked cfg e.coin = false) :
    (is_closing e = false →
      ((process_fill cfg env meta s wallet_address e).outcome = .maxPositions ↔
        (ledgerHas s.open_positions e.coin = false ∧
          cfg.max_open_positions ≤ s.open_positions.length))) ∧
    (is_closing e = true →
      (process_fill cfg env meta s wallet_address e).outcome ≠ .maxPositions) ∧
    (is_closing e = false →
      s.open_positions.length ≤ cfg.max_open_positions →
      env.open_snapshot.length ≤ cfg.max_open_positions →
      nonzeroCount
        (process_fill cfg env meta s wallet_address e).state.open_positions ≤
        cfg.max_open_positions) := by
  rw [process_fill_fresh cfg env meta s wallet_address e hw hd]
  refine ⟨fun hcl => ?_, fun hcl hmax => ?_, fun hcl h1 h2 => ?_⟩
  · simpa [hc, hcl] using body_outcome_max_iff cfg env meta s.open_positions e
  · obtain ⟨-, hf, -⟩ := (body_outcome_max_iff cfg env meta
      s.open_positions e).mp (by simpa using hmax)
    rw [hcl] at hf
    simp at hf
  · simpa using body_open_count_le cfg env meta s.open_positions e hcl h1 h2

/-- Witness for the amended C8: the gate fires on a fresh Open for a new coin
when the ledger (one BTC entry) is already at the cap of one. -/
theorem max_positions_gate_witness :
    (process_fill
      ⟨"0xabc".data, 5, true, 100, 10, 1, 1/2, "ALL".data, none⟩
      ⟨1000, [], [], .filled 0 0⟩ [] ⟨[], [("BTC".data, 1)]⟩ "0xabc".data
      ⟨"h4".data, "t4".data, "ETH".data, "B".data, 10, 2000, 0,
        "Open Long".data⟩).outcome = .maxPositions := by
  have h := (max_positions_gate
    ⟨"0xabc".data, 5, true, 100, 10, 1, 1/2, "ALL".data, none⟩
    ⟨1000, [], [], .filled 0 0⟩ [] ⟨[], [("BTC".data, 1)]⟩ "0xabc".data
    ⟨"h4".data, "t4".data, "ETH".data, "B".data, 10, 2000, 0, "Open Long".data⟩
    (by decide) (by decide) (by decide)).1 (by decide)
  exact h.mpr (by decide)

/-! ## C10: ENABLED mode with an empty allow-set -/

/-- **C10**: when the filter mode is ENABLED but no allow-set is configured
(the source stores `None` then; the empty set is covered too), no symbol is
ever blocked and `process_fill` behaves identically to mode ALL. -/
theorem enabled_empty_allowlist_is_all (cfg : Config) (env : Env)
    (meta : MetaMap) (s : BotState) (wallet_address : Str) (e : FillData)
    (hm : cfg.coin_filter_mode = "ENABLED".data)
    (he : cfg.enabled_coins = none ∨ cfg.enabled_coins = some []) :
    (∀ coin, coinBlocked cfg coin = false) ∧
    process_fill cfg env meta s wallet_address e =
      process_fill { cfg with coin_filter_mode := "ALL".data } env meta s
        wallet_address e := by
  obtain ⟨tw, cp, dr, mxp, mnp, mop, st, cfm, ec⟩ := cfg
  obtain rfl : cfm = "ENABLED".data := hm
  rcases he with he | he
  · obtain rfl : ec = none := he
    exact ⟨fun coin => rfl, rfl⟩
  · obtain rfl : ec = some [] := he
    exact ⟨fun coin => rfl, rfl⟩

/-- Witness for C10 at a concrete ENABLED configuration with no allow-set. -/
theorem enabled_empty_allowlist_is_all_witness :
    coinBlocked ⟨"0xabc".data, 5, true, 100, 10, 4, 1/2, "ENABLED".data, none⟩
      "ETH".data = false ∧
    process_fill ⟨"0xabc".data, 5, true, 100, 10, 4, 1/2, "ENABLED".data, none⟩
      ⟨1000, [], [], .filled 0 0⟩ [] ⟨[], []⟩ "0xabc".data
      ⟨"h5".data, "t5".data, "ETH".data, "B".data, 10, 2000, 0,
        "Open Long".data⟩ =
    process_fill ⟨"0xabc".data, 5, true, 100, 10, 4, 1/2, "ALL".data, none⟩
      ⟨1000, [], [], .filled 0 0⟩ [] ⟨[], []⟩ "0xabc".data
      ⟨"h5".data, "t5".data, "ETH".data, "B".data, 10, 2000, 0,
        "Open Long".data⟩ :=
  ⟨(enabled_empty_allowlist_is_all
      ⟨"0xabc".data, 5, true, 100, 10, 4, 1/2, "ENABLED".data, none⟩
      ⟨1000, [], [], .filled 0 0⟩ [] ⟨[], []⟩ "0xabc".data
      ⟨"h5".data, "t5".data, "ETH".data, "B".data, 10, 2000, 0,
        "Open Long".data⟩ rfl (Or.inl rfl)).1 "ETH".data,
   (enabled_empty_allowlist_is_all
      ⟨"0xabc".data, 5, true, 100, 10, 4, 1/2, "ENABLED".data, none⟩
      ⟨1000, [], [], .filled 0 0⟩ [] ⟨[], []⟩ "0xabc".data
      ⟨"h5".data, "t5".data, "ETH".data, "B".data, 10, 2000, 0,
        "Open Long".data⟩ rfl (Or.inl rfl)).2⟩

end CopyTrader
